import Mathlib

/-!
Verification of the trace-cleaning / element-extraction / configuration
core of the Sachinpromptwright repository.

The program operates on JSON documents parsed by Python's json.load.  We
embed JSON values as the inductive type JVal below; Python dicts become
ordered association lists (dicts built by json.load have pairwise
distinct keys, which the validity predicates record where a proof needs
it), and in-place dict updates become structure-preserving field maps.
-/

set_option autoImplicit false

namespace Spec2Proof

/-- JSON values as produced by Python's json.load.  Numbers are modelled
as integers; no operation verified here inspects a numeric value. -/
inductive JVal : Type where
  | null : JVal
  | bool : Bool → JVal
  | num : Int → JVal
  | str : String → JVal
  | arr : List JVal → JVal
  | obj : List (String × JVal) → JVal
  deriving Repr, Inhabited

/-- Python truthiness of a JSON value: None, False, 0, empty string,
empty list and empty dict are falsy, everything else truthy. -/
def JVal.truthy : JVal → Bool
  | .null => false
  | .bool b => b
  | .num n => n != 0
  | .str s => s != ""
  | .arr xs => !xs.isEmpty
  | .obj fs => !fs.isEmpty

/-- First-match key lookup in an association list (Python dict access on
a duplicate-free list of fields). -/
def getVal : List (String × JVal) → String → Option JVal
  | [], _ => none
  | p :: rest, k => if p.1 = k then some p.2 else getVal rest k

/-- Key list of an object. -/
def keysOf (fs : List (String × JVal)) : List String := fs.map Prod.fst

/-- Rewrite every field value in place, keeping keys and field order: the
shape of an in-place Python dict update. -/
def mapVal (g : String → JVal → JVal) (fs : List (String × JVal)) :
    List (String × JVal) :=
  fs.map (fun p => (p.1, g p.1 p.2))

/-- Value transformer touching exactly one key. -/
def keyUpd (k : String) (h : JVal → JVal) (k' : String) (v : JVal) : JVal :=
  if k' = k then h v else v

/-- Replace the value stored under key k by v wherever the key occurs,
keeping the key present; identity when the key is absent. -/
def updKey (fs : List (String × JVal)) (k : String) (v : JVal) :
    List (String × JVal) :=
  mapVal (keyUpd k (fun _ => v)) fs

/-! ### HistoryCleaner.clean_history (src/utils/history_cleaner.py, lines 41-59) -/

/-- The three geometry keys blanked by the cleaner (lines 53-58). -/
def coordKey (k : String) : Bool :=
  decide (k = "page_coordinates" ∨ k = "viewport_coordinates" ∨ k = "viewport_info")

/-- Lines 51-58: for an interacted element that is truthy and a dict, set
each of the three coordinate keys that is present to an empty dict;
other elements are left untouched. -/
def cleanElement (el : JVal) : JVal :=
  match el with
  | .obj gs =>
      if (JVal.obj gs).truthy then
        .obj (mapVal (fun k v => if coordKey k then JVal.obj [] else v) gs)
      else el
  | _ => el

/-- Lines 44-47: a truthy screenshot value is replaced by the empty string. -/
def cleanScreenshotVal (v : JVal) : JVal :=
  if v.truthy then JVal.str "" else v

/-- Lines 50-58: every member of the interacted_element list goes through
cleanElement.  A non-list value is left as is (for the dict and string
cases Python iterates keys or characters, none of which is a dict, so
nothing changes; valid traces carry a list here). -/
def cleanInteractedVal (v : JVal) : JVal :=
  match v with
  | .arr es => JVal.arr (es.map cleanElement)
  | _ => v

/-- Per-field action of the cleaner on a step's state dict. -/
def cleanStateVal (k : String) (v : JVal) : JVal :=
  if k = "screenshot" then cleanScreenshotVal v
  else if k = "interacted_element" then cleanInteractedVal v
  else v

def cleanState (st : JVal) : JVal :=
  match st with
  | .obj fs => .obj (mapVal cleanStateVal fs)
  | _ => st

def cleanEntry (e : JVal) : JVal :=
  match e with
  | .obj fs => .obj (mapVal (keyUpd "state" cleanState) fs)
  | _ => e

/-- Map cleanEntry over the history list. -/
def cleanHistoryVal (v : JVal) : JVal :=
  match v with
  | .arr es => JVal.arr (es.map cleanEntry)
  | _ => v

/-- In-memory transformation of HistoryCleaner.clean_history between
json.load and json.dump.  Accessing history_data['history'] and
iterating it requires a dict document whose history key holds a list;
anything else raises in Python and is modelled as none. -/
def clean_history (doc : JVal) : Option JVal :=
  match doc with
  | .obj fs =>
      match getVal fs "history" with
      | some (.arr _) =>
          some (.obj (mapVal (keyUpd "history" cleanHistoryVal) fs))
      | _ => none
  | _ => none

/-! ### Valid trace documents

A valid trace document is the shape the spec calls ExecutionTrace: a
mapping with a history list of steps, each step a mapping whose optional
state is a mapping with an optional string-or-null screenshot and an
optional list of interacted elements.  Mappings produced by Python's
json.load have pairwise distinct keys. -/

def validState (st : JVal) : Bool :=
  match st with
  | .obj fs =>
      decide (keysOf fs).Nodup
      && (match getVal fs "screenshot" with
          | some (.str _) => true
          | some .null => true
          | none => true
          | some _ => false)
      && (match getVal fs "interacted_element" with
          | some (.arr _) => true
          | none => true
          | some _ => false)
  | _ => false

def validEntry (e : JVal) : Bool :=
  match e with
  | .obj fs =>
      decide (keysOf fs).Nodup
      && (match getVal fs "state" with
          | some st => validState st
          | none => true)
  | _ => false

def validTrace (doc : JVal) : Bool :=
  match doc with
  | .obj fs =>
      decide (keysOf fs).Nodup
      && (match getVal fs "history" with
          | some (.arr es) => es.all validEntry
          | _ => false)
  | _ => false

/-- Concrete two-step trace used by the C1 witness: a screenshot, a
structured element with geometry fields, a null element, and unrelated
extra fields at every level. -/
def c1doc : JVal :=
  JVal.obj [("history", JVal.arr [
    JVal.obj [("state", JVal.obj [
        ("screenshot", JVal.str "iVBORw0KGgo"),
        ("interacted_element", JVal.arr [
          JVal.obj [("tag_name", JVal.str "a"),
            ("page_coordinates", JVal.obj [("x", JVal.num 3)]),
            ("viewport_info", JVal.obj [("width", JVal.num 800)])],
          JVal.null]),
        ("url", JVal.str "https://example.com")]),
      ("action", JVal.str "click")],
    JVal.obj [("state", JVal.obj [("screenshot", JVal.str "")])]]),
    ("extra", JVal.num 1)]

/-- Concrete one-step trace used by the C2 witness. -/
def c2doc : JVal :=
  JVal.obj [("history", JVal.arr [
    JVal.obj [("state", JVal.obj [
        ("screenshot", JVal.str "abc"),
        ("interacted_element", JVal.arr [
          JVal.obj [("viewport_coordinates", JVal.obj [("x", JVal.num 1)])]])])]])]

/-- Result of cleaning c2doc. -/
def c2out : JVal :=
  JVal.obj [("history", JVal.arr [
    JVal.obj [("state", JVal.obj [
        ("screenshot", JVal.str ""),
        ("interacted_element", JVal.arr [
          JVal.obj [("viewport_coordinates", JVal.obj [])]])])]])]

/-! ### Spec-side sanitizer, worded from claim C1

The claim describes the output per field: screenshot present and
non-empty becomes the empty string with the key kept; each of the three
geometry fields present on a structured interacted-element record
becomes an empty mapping; nothing else changes. -/

/-- Claim wording: on a structured record, each of the three geometry
fields that is present is replaced by an empty mapping. -/
def specCleanElement (el : JVal) : JVal :=
  match el with
  | .obj gs =>
      .obj (updKey (updKey (updKey gs "page_coordinates" (JVal.obj []))
              "viewport_coordinates" (JVal.obj []))
              "viewport_info" (JVal.obj []))
  | _ => el

/-- Claim wording: a screenshot that is present and a non-empty string
is replaced by the empty string; the key stays present. -/
def specScreenshotPass (fs : List (String × JVal)) : List (String × JVal) :=
  match getVal fs "screenshot" with
  | some (.str s) => if s = "" then fs else updKey fs "screenshot" (JVal.str "")
  | _ => fs

/-- Claim wording: every member of a present interacted_element list
that is a structured record is cleaned. -/
def specInteractedPass (fs : List (String × JVal)) : List (String × JVal) :=
  match getVal fs "interacted_element" with
  | some (.arr es) => updKey fs "interacted_element" (JVal.arr (es.map specCleanElement))
  | _ => fs

/-- Claim wording: both per-state redactions; all other fields are
untouched. -/
def specCleanState (st : JVal) : JVal :=
  match st with
  | .obj fs => .obj (specInteractedPass (specScreenshotPass fs))
  | _ => st

def specCleanEntry (e : JVal) : JVal :=
  match e with
  | .obj fs =>
      match getVal fs "state" with
      | some st => .obj (updKey fs "state" (specCleanState st))
      | none => e
  | _ => e

def specCleanTrace (doc : JVal) : JVal :=
  match doc with
  | .obj fs =>
      match getVal fs "history" with
      | some (.arr es) => .obj (updKey fs "history" (JVal.arr (es.map specCleanEntry)))
      | _ => doc
  | _ => doc

/-! ### Character-list utilities

Python string primitives (split, strip, substring search) are modelled
by structural recursion over character lists so that concrete instances
reduce inside the kernel. -/

/-- pat is a prefix of l. -/
def isPrefixL : List Char → List Char → Bool
  | [], _ => true
  | _ :: _, [] => false
  | a :: as, b :: bs => a = b && isPrefixL as bs

/-- First occurrence of a non-empty pattern: the text before it and the
text after it, none when the pattern does not occur. -/
def splitFirst (sep : List Char) : List Char → Option (List Char × List Char)
  | [] => if sep.isEmpty then some ([], []) else none
  | c :: rest =>
      if isPrefixL sep (c :: rest) then some ([], (c :: rest).drop sep.length)
      else
        match splitFirst sep rest with
        | some (pre, post) => some (c :: pre, post)
        | none => none

/-- Final chunk of Python's s.split(sep): the text after the last
occurrence in the leftmost non-overlapping scan; the whole text when the
pattern does not occur.  Fuel bounds the scan; ln + 1 fuel suffices for
a text of length ln and a non-empty pattern. -/
def lastChunk (sep : List Char) : Nat → List Char → List Char
  | 0, l => l
  | fuel + 1, l =>
      match splitFirst sep l with
      | none => l
      | some (_, post) => lastChunk sep fuel post

/-- First chunk of Python's s.split(sep): the text before the first
occurrence; the whole text when the pattern does not occur. -/
def firstChunk (sep l : List Char) : List Char :=
  match splitFirst sep l with
  | some (pre, _) => pre
  | none => l

/-- pat occurs somewhere in l (Python's substring containment). -/
def isInfixB (pat : List Char) : List Char → Bool
  | [] => pat.isEmpty
  | c :: t => isPrefixL pat (c :: t) || isInfixB pat t

/-- Whitespace stripped by Python's str.strip(). -/
def pyWhitespace (c : Char) : Bool :=
  c = ' ' || c = '\t' || c = '\n' || c = '\r' || c = '\x0b' || c = '\x0c'

/-- Python's str.strip(). -/
def trimL (l : List Char) : List Char :=
  ((l.dropWhile pyWhitespace).reverse.dropWhile pyWhitespace).reverse

/-! ### CodeGenerator.extract_interacted_elements
(src/services/code_generator.py, lines 37-99) -/

/-- Projection of one interacted element to the five retained attributes
(lines 72-78); element.get(k) yields None for a missing key. -/
def projectElement (gs : List (String × JVal)) : List (String × JVal) :=
  [("tag_name", (getVal gs "tag_name").getD JVal.null),
   ("xpath", (getVal gs "xpath").getD JVal.null),
   ("attributes", (getVal gs "attributes").getD JVal.null),
   ("css_selector", (getVal gs "css_selector").getD JVal.null),
   ("entire_parent_branch_path", (getVal gs "entire_parent_branch_path").getD JVal.null)]

/-- Lines 65-79 for one state: elements = state.get('interacted_element', []),
then every element that is truthy and a dict contributes its projection.
Iterating a present dict yields its keys and a string its characters,
none of which is a dict, hence an empty contribution; iterating null or
a number raises TypeError (none), as does state.get on a non-dict. -/
def extractStateElems (st : JVal) : Option (List JVal) :=
  match st with
  | .obj fs =>
      match getVal fs "interacted_element" with
      | some (.arr es) =>
          some (es.filterMap (fun el =>
            match el with
            | .obj gs =>
                if (JVal.obj gs).truthy then some (JVal.obj (projectElement gs))
                else none
            | _ => none))
      | some (.obj _) => some []
      | some (.str _) => some []
      | some _ => none
      | none => some []
  | _ => none

/-- Line 65: state = entry.get('state', {}); entry.get on a non-dict
raises AttributeError. -/
def extractEntryElems (e : JVal) : Option (List JVal) :=
  match e with
  | .obj fs => extractStateElems ((getVal fs "state").getD (JVal.obj []))
  | _ => none

/-- Sequential per-entry extraction; the first failing entry aborts the
whole pass, as an exception does in the source loop. -/
def mapOpt (f : JVal → Option (List JVal)) : List JVal → Option (List (List JVal))
  | [] => some []
  | e :: rest =>
      match f e, mapOpt f rest with
      | some l, some ls => some (l :: ls)
      | _, _ => none

/-- In-memory content of the elements file written by
extract_interacted_elements: history_data.get('history', []) (line 61),
per-entry extraction, and the wrapping object of line 88.  A non-list
history or non-dict document raises in Python (an empty dict or empty
string history would vacuously succeed, but those are not trace
documents and never reach this code). -/
def extract_interacted_elements (doc : JVal) : Option JVal :=
  match doc with
  | .obj fs =>
      match (getVal fs "history").getD (JVal.arr []) with
      | .arr es =>
          (mapOpt extractEntryElems es).map
            (fun lss => JVal.obj [("interacted_elements", JVal.arr lss.flatten)])
      | _ => none
  | _ => none

/-- Line 54: timestamp extraction from the filename,
path.split('cleaned_history_')[-1].split('.json')[0].  Total for every
filename. -/
def extractTimestamp (path : String) : String :=
  let cs := path.data
  let afterMarker := lastChunk "cleaned_history_".data (cs.length + 1) cs
  String.mk (firstChunk ".json".data afterMarker)

/-- The naming convention claim C4 refers to: the marker occurs in the
filename and the filename ends with the .json suffix. -/
def matchesNamingConvention (path : String) : Bool :=
  (splitFirst "cleaned_history_".data path.data).isSome
  && isPrefixL ".json".data.reverse path.data.reverse

/-- The extractor run on a filename and the loaded trace: the timestamp
derived from the filename together with the elements document. -/
def extract_with_timestamp (path : String) (doc : JVal) :
    Option (String × JVal) :=
  (extract_interacted_elements doc).map (fun out => (extractTimestamp path, out))

/-! ### Spec-side extraction, worded from claims C3 and C10 -/

/-- The history list of a trace document (empty fallback mirrors
history_data.get('history', [])). -/
def stepsOf (doc : JVal) : List JVal :=
  match doc with
  | .obj fs =>
      match (getVal fs "history").getD (JVal.arr []) with
      | .arr es => es
      | _ => []
  | _ => []

/-- The interacted_element list of one step. -/
def elemsOfStep (e : JVal) : List JVal :=
  match e with
  | .obj fs =>
      match (getVal fs "state").getD (JVal.obj []) with
      | .obj sfs =>
          match getVal sfs "interacted_element" with
          | some (.arr es) => es
          | _ => []
      | _ => []
  | _ => []

/-- Claim C3 wording: an entry counts when it is a non-null structured
record. -/
def isRecordEntry (el : JVal) : Bool :=
  match el with
  | .obj _ => true
  | _ => false

/-- What the code actually keeps: a structured record with at least one
field (Python truthiness also drops an empty record). -/
def isNonEmptyRecord (el : JVal) : Bool :=
  match el with
  | .obj gs => !gs.isEmpty
  | _ => false

def specProjectRecord (el : JVal) : JVal :=
  match el with
  | .obj gs => JVal.obj (projectElement gs)
  | _ => el

/-- Claim C3's predicted output, as worded: the concatenation, in step
order and within-step order, of the projection of every non-null
structured record. -/
def claimExtractList (doc : JVal) : List JVal :=
  ((stepsOf doc).map
    (fun e => ((elemsOfStep e).filter isRecordEntry).map specProjectRecord)).flatten

/-- Amended prediction: empty records are also skipped. -/
def specExtractList (doc : JVal) : List JVal :=
  ((stepsOf doc).map
    (fun e => ((elemsOfStep e).filter isNonEmptyRecord).map specProjectRecord)).flatten

/-- Every interacted element of the trace, in order. -/
def allInteractedElems (doc : JVal) : List JVal :=
  ((stepsOf doc).map elemsOfStep).flatten

/-- The five keys every emitted record carries, in output order. -/
def fiveKeys : List String :=
  ["tag_name", "xpath", "attributes", "css_selector", "entire_parent_branch_path"]

/-- Trace documents on which the extractor's Python loop is exception
free: each entry a dict whose state, when present, is a dict whose
interacted_element, when present, is a list. -/
def validExtractState (st : JVal) : Bool :=
  match st with
  | .obj fs =>
      match getVal fs "interacted_element" with
      | some (.arr _) => true
      | none => true
      | some _ => false
  | _ => false

def validExtractEntry (e : JVal) : Bool :=
  match e with
  | .obj fs => validExtractState ((getVal fs "state").getD (JVal.obj []))
  | _ => false

def validForExtract (doc : JVal) : Bool :=
  match doc with
  | .obj fs =>
      match (getVal fs "history").getD (JVal.arr []) with
      | .arr es => es.all validExtractEntry
      | _ => false
  | _ => false

/-- C3 counterexample input: one step whose interacted_element list
holds a single empty record. -/
def c3cex : JVal :=
  JVal.obj [("history", JVal.arr [
    JVal.obj [("state", JVal.obj [
        ("interacted_element", JVal.arr [JVal.obj []])])]])]

/-- C3 witness input: elements A, B spread over two steps plus C in the
second step, interleaved with null entries. -/
def c3doc : JVal :=
  JVal.obj [("history", JVal.arr [
    JVal.obj [("state", JVal.obj [
        ("interacted_element", JVal.arr [
          JVal.obj [("tag_name", JVal.str "a"), ("xpath", JVal.str "/a")],
          JVal.null])])],
    JVal.obj [("state", JVal.obj [
        ("interacted_element", JVal.arr [
          JVal.obj [("tag_name", JVal.str "b"), ("css_selector", JVal.str ".b")],
          JVal.obj [("tag_name", JVal.str "c"),
            ("attributes", JVal.obj [("href", JVal.str "x")])]])])]])]

/-- C10 witness input: one record lacking four of the five projected
fields. -/
def c10doc : JVal :=
  JVal.obj [("history", JVal.arr [
    JVal.obj [("state", JVal.obj [
        ("interacted_element", JVal.arr [
          JVal.obj [("tag_name", JVal.str "div")]])])]])]

/-! ### ConfigManager (src/services/config_manager.py)

The resolver state is the runtime overlay dict plus the process
environment, both string-to-string mappings; dict assignment becomes a
prepend read through first-match lookup. -/

structure ConfigState where
  runtime : List (String × String)
  env : List (String × String)

/-- First-match lookup: dict.get(key) / os.getenv(key). -/
def lookupKey : List (String × String) → String → Option String
  | [], _ => none
  | p :: rest, k => if p.1 = k then some p.2 else lookupKey rest k

/-- ConfigManager.set_config (lines 27-32): store in the runtime overlay
and mirror into the process environment. -/
def set_config (st : ConfigState) (k v : String) : ConfigState :=
  { runtime := (k, v) :: st.runtime, env := (k, v) :: st.env }

/-- Line 36: self._runtime_config.get(key, os.getenv(key, default)). -/
def resolve (st : ConfigState) (k : String) (default : Option String) :
    Option String :=
  match lookupKey st.runtime k with
  | some v => some v
  | none =>
      match lookupKey st.env k with
      | some v => some v
      | none => default

/-- Characters CPython accepts in a URL scheme after the leading
letter. -/
def schemeChar (c : Char) : Bool :=
  c.isAlpha || c.isDigit || c = '+' || c = '-' || c = '.'

def headIsAlpha : List Char → Bool
  | [] => false
  | c :: _ => c.isAlpha

/-- Scheme splitting of CPython's urllib.parse.urlparse: a non-empty
colon-terminated run of scheme characters starting with an ASCII letter
is the scheme (lower-cased); otherwise the scheme is empty and the text
is untouched. -/
def splitScheme (cs : List Char) : String × List Char :=
  let pre := cs.takeWhile (fun c => c != ':')
  if decide (pre.length < cs.length) && headIsAlpha pre && pre.all schemeChar then
    (String.mk (pre.map Char.toLower), cs.drop (pre.length + 1))
  else ("", cs)

/-- Characters ending the netloc. -/
def netlocEnd (c : Char) : Bool :=
  c = '/' || c = '?' || c = '#'

/-- urllib.parse.urlparse restricted to the scheme and netloc consumed
by _clean_azure_endpoint; none models the ValueError it raises for a
netloc with unbalanced square brackets (Invalid IPv6 URL). -/
def urlparseSchemeNetloc (url : String) : Option (String × String) :=
  let sr := splitScheme url.data
  if isPrefixL "//".data sr.2 then
    let netloc := (sr.2.drop 2).takeWhile (fun c => !netlocEnd c)
    if (netloc.contains '[' && !netloc.contains ']')
        || (netloc.contains ']' && !netloc.contains '[') then none
    else some (sr.1, String.mk netloc)
  else some (sr.1, "")

/-- ConfigManager._clean_azure_endpoint (lines 123-137): falsy values
pass through, a parsed URL is re-emitted as scheme://netloc, and a parse
failure returns the raw value unchanged. -/
def clean_azure_endpoint (endpoint : Option String) : Option String :=
  match endpoint with
  | none => none
  | some s =>
      if s = "" then some s
      else
        match urlparseSchemeNetloc s with
        | some (sc, nl) => some (sc ++ "://" ++ nl)
        | none => some s

/-- Line 39: not value or value.strip() == "". -/
def blankVal (v : Option String) : Bool :=
  match v with
  | none => true
  | some s => decide (trimL s.data = [])

/-- Lines 46-55, first stage: runtime overlay then environment, no
default. -/
def adnLookup (st : ConfigState) : Option String :=
  match lookupKey st.runtime "AZURE_DEPLOYMENT_NAME" with
  | some d => some d
  | none => lookupKey st.env "AZURE_DEPLOYMENT_NAME"

/-- ConfigManager.get_config (lines 34-58): layered resolution followed
by the three key-specific post-processing steps in source order. -/
def get_config (st : ConfigState) (key : String) (default : Option String) :
    Option String :=
  let v1 := resolve st key default
  let v2 := if key = "CODE_GENERATION_PERSONA" ∧ blankVal v1 = true
            then some "playwright_ts_code" else v1
  let v3 := if key = "AZURE_OPENAI_ENDPOINT" then clean_azure_endpoint v2 else v2
  if key = "AZURE_DEPLOYMENT_NAME" then
    match adnLookup st with
    | some dn => if dn = "" then resolve st "MODEL_NAME" default else some dn
    | none => resolve st "MODEL_NAME" default
  else v3

/-- ConfigManager.update_from_ui (lines 60-67): apply set_config to
every non-null entry, in mapping order; null entries are skipped. -/
def update_from_ui (st : ConfigState) : List (String × Option String) → ConfigState
  | [] => st
  | (k, some v) :: rest => update_from_ui (set_config st k v) rest
  | (_, none) :: rest => update_from_ui st rest

/-! ### Fence stripping (src/app.py, lines 1079-1089 and 1103-1119)

The accumulated text is modelled as its list of newline-separated
lines.  The fence markers contain no newline, so a marker occurs in the
joined text exactly when it occurs in some line. -/

/-- One stripping pass for the active marker: keep the lines whose
stripped form neither starts with the marker nor equals a bare fence. -/
def stripFenceLines (marker : String) (lines : List String) : List String :=
  lines.filter (fun l =>
    !(isPrefixL marker.data (trimL l.data))
      && !(decide (trimL l.data = "```".data)))

/-- The marker occurs somewhere in the text. -/
def containsMarker (marker : String) (lines : List String) : Bool :=
  lines.any (fun l => isInfixB marker.data l.data)

/-- The full display/download cleanup: dispatch on the first language
marker present anywhere in the text, then filter its fence lines. -/
def stripFences (lines : List String) : List String :=
  if containsMarker "```python" lines then stripFenceLines "```python" lines
  else if containsMarker "```typescript" lines then
    stripFenceLines "```typescript" lines
  else if containsMarker "```java" lines then stripFenceLines "```java" lines
  else lines

/-- C8 counterexample text: a python fence line followed by a line in
which the typescript marker occurs. -/
def c8lines : List String :=
  ["```python", "```typescript const x = 1;", "code"]

/-! ### Code generation streaming (src/services/code_generator.py,
lines 170-284)

The provider boundary is the pair of capabilities the spec names:
invoke(messages) returning the full text and stream(messages) yielding
text fragments.  File reading is resolved before this point; the inputs
are the cleaned-history text and the prompt-template text. -/

structure Provider where
  invoke : List (String × String) → String
  stream : List (String × String) → List String

/-- Lines 193 and 243: the prompt template with the marker replaced by
the trace text; lines 204-207 and 255-258: the fixed two-message
request. -/
def buildMessages (historyContent promptTemplate : String) :
    List (String × String) :=
  [("system",
    "You are a Playwright TypeScript code generator. Generate only the code with no additional text."),
   ("human", promptTemplate.replace "\x7bjson_file_content\x7d" historyContent)]

/-- generate_typescript_code (lines 170-211): one invoke call, returning
response.content. -/
def generate_typescript_code (P : Provider)
    (historyContent promptTemplate : String) : String :=
  P.invoke (buildMessages historyContent promptTemplate)

/-- generate_typescript_code_stream (lines 213-284): yields every
chunk's content unchanged (single-fragment pass-through; the
total_content accumulator only feeds logging). -/
def generate_typescript_code_stream (P : Provider)
    (historyContent promptTemplate : String) : List String :=
  P.stream (buildMessages historyContent promptTemplate)

/-! ### Association-list lemmas -/

theorem getVal_mapVal (g : String → JVal → JVal) (fs : List (String × JVal))
    (k : String) : getVal (mapVal g fs) k = (getVal fs k).map (g k) := by
  induction fs with
  | nil => rfl
  | cons p rest ih =>
      by_cases h : p.1 = k
      · simp [mapVal, getVal, h]
      · simpa [mapVal, getVal, h] using ih

theorem keysOf_mapVal (g : String → JVal → JVal) (fs : List (String × JVal)) :
    keysOf (mapVal g fs) = keysOf fs := by
  simp [keysOf, mapVal, Function.comp]

theorem mapVal_comp (g₁ g₂ : String → JVal → JVal) (fs : List (String × JVal)) :
    mapVal g₂ (mapVal g₁ fs) = mapVal (fun k v => g₂ k (g₁ k v)) fs := by
  simp [mapVal, Function.comp]

theorem getVal_none_iff (fs : List (String × JVal)) (k : String) :
    getVal fs k = none ↔ k ∉ keysOf fs := by
  induction fs with
  | nil => simp [getVal, keysOf]
  | cons p rest ih =>
      by_cases h : p.1 = k
      · simp [getVal, keysOf, h]
      · simp [getVal, keysOf, h, ih]
        intro hk
        exact fun hh => h hh.symm

theorem mapVal_keyUpd_of_none (k : String) (h : JVal → JVal)
    (fs : List (String × JVal)) (hk : getVal fs k = none) :
    mapVal (keyUpd k h) fs = fs := by
  induction fs with
  | nil => rfl
  | cons p rest ih =>
      by_cases hp : p.1 = k
      · simp [getVal, hp] at hk
      · simp [getVal, hp] at hk
        simp [mapVal, keyUpd, hp, mapVal] at ih ⊢
        exact ih hk

theorem mapVal_keyUpd_of_some (k : String) (h : JVal → JVal)
    (fs : List (String × JVal)) (v : JVal)
    (hnd : (keysOf fs).Nodup) (hk : getVal fs k = some v) :
    mapVal (keyUpd k h) fs = updKey fs k (h v) := by
  induction fs with
  | nil => simp [getVal] at hk
  | cons p rest ih =>
      simp only [keysOf, List.map_cons, List.nodup_cons] at hnd
      by_cases hp : p.1 = k
      · have hk' : p.2 = v := by
          have := hk
          simp [getVal, hp] at this
          exact this
        have hrest : getVal rest k = none := by
          rw [getVal_none_iff, ← hp]
          exact hnd.1
        calc mapVal (keyUpd k h) (p :: rest)
            = (p.1, keyUpd k h p.1 p.2) :: mapVal (keyUpd k h) rest := rfl
          _ = (p.1, h v) :: rest := by
                rw [mapVal_keyUpd_of_none k h rest hrest, hk']
                simp [keyUpd, hp]
          _ = (p.1, keyUpd k (fun _ => h v) p.1 p.2) ::
                mapVal (keyUpd k (fun _ => h v)) rest := by
                rw [mapVal_keyUpd_of_none k (fun _ => h v) rest hrest]
                simp [keyUpd, hp]
          _ = updKey (p :: rest) k (h v) := rfl
      · simp [getVal, hp] at hk
        simp [mapVal, updKey, keyUpd, hp] at ih ⊢
        exact ih hnd.2 hk

theorem updKey_eq_self (fs : List (String × JVal)) (k : String) (v : JVal)
    (hnd : (keysOf fs).Nodup) (hk : getVal fs k = some v) :
    updKey fs k v = fs := by
  induction fs with
  | nil => simp [getVal] at hk
  | cons p rest ih =>
      simp only [keysOf, List.map_cons, List.nodup_cons] at hnd
      by_cases hp : p.1 = k
      · have hk' : p.2 = v := by
          have := hk
          simp [getVal, hp] at this
          exact this
        have hrest : getVal rest k = none := by
          rw [getVal_none_iff, ← hp]
          exact hnd.1
        calc updKey (p :: rest) k v
            = (p.1, keyUpd k (fun _ => v) p.1 p.2) ::
                mapVal (keyUpd k (fun _ => v)) rest := rfl
          _ = (p.1, p.2) :: rest := by
                rw [mapVal_keyUpd_of_none k (fun _ => v) rest hrest, hk']
                simp [keyUpd, hp]
          _ = p :: rest := rfl
      · simp [getVal, hp] at hk
        simp [updKey, mapVal, keyUpd, hp] at ih ⊢
        exact ih hnd.2 hk

/-! ### Decomposing the validity predicates -/

theorem validState_parts (fs : List (String × JVal))
    (h : validState (.obj fs) = true) :
    (keysOf fs).Nodup
    ∧ (getVal fs "screenshot" = none ∨ getVal fs "screenshot" = some JVal.null
        ∨ ∃ s, getVal fs "screenshot" = some (JVal.str s))
    ∧ (getVal fs "interacted_element" = none
        ∨ ∃ es, getVal fs "interacted_element" = some (JVal.arr es)) := by
  simp only [validState, Bool.and_eq_true, decide_eq_true_eq] at h
  refine ⟨h.1.1, ?_, ?_⟩
  · cases hgv : getVal fs "screenshot" with
    | none => exact Or.inl rfl
    | some v =>
        rw [hgv] at h
        cases v with
        | null => exact Or.inr (Or.inl rfl)
        | str s => exact Or.inr (Or.inr ⟨s, rfl⟩)
        | bool b => simp at h
        | num n => simp at h
        | arr xs => simp at h
        | obj o => simp at h
  · cases hgv : getVal fs "interacted_element" with
    | none => exact Or.inl rfl
    | some v =>
        rw [hgv] at h
        cases v with
        | arr es => exact Or.inr ⟨es, rfl⟩
        | null => simp at h
        | str s => simp at h
        | bool b => simp at h
        | num n => simp at h
        | obj o => simp at h

theorem validEntry_parts (fs : List (String × JVal))
    (h : validEntry (.obj fs) = true) :
    (keysOf fs).Nodup
    ∧ (getVal fs "state" = none
        ∨ ∃ st, getVal fs "state" = some st ∧ validState st = true) := by
  simp only [validEntry, Bool.and_eq_true, decide_eq_true_eq] at h
  refine ⟨h.1, ?_⟩
  cases hgv : getVal fs "state" with
  | none => exact Or.inl rfl
  | some st =>
      rw [hgv] at h
      exact Or.inr ⟨st, rfl, h.2⟩

theorem validTrace_parts (fs : List (String × JVal))
    (h : validTrace (.obj fs) = true) :
    (keysOf fs).Nodup
    ∧ ∃ es, getVal fs "history" = some (JVal.arr es)
        ∧ ∀ e ∈ es, validEntry e = true := by
  simp only [validTrace, Bool.and_eq_true, decide_eq_true_eq] at h
  refine ⟨h.1, ?_⟩
  cases hgv : getVal fs "history" with
  | none => rw [hgv] at h; simp at h
  | some v =>
      rw [hgv] at h
      cases v with
      | arr es =>
          refine ⟨es, rfl, ?_⟩
          simpa [List.all_eq_true] using h.2
      | null => simp at h
      | str s => simp at h
      | bool b => simp at h
      | num n => simp at h
      | obj o => simp at h

/-! ### The spec-side sanitizer agrees with the code -/

theorem specCleanElement_eq (el : JVal) :
    specCleanElement el = cleanElement el := by
  cases el with
  | null => rfl
  | bool b => rfl
  | num n => rfl
  | str s => rfl
  | arr xs => rfl
  | obj gs =>
      have hfun : (fun (k : String) (v : JVal) =>
            keyUpd "viewport_info" (fun _ => JVal.obj []) k
              (keyUpd "viewport_coordinates" (fun _ => JVal.obj []) k
                (keyUpd "page_coordinates" (fun _ => JVal.obj []) k v)))
          = (fun k v => if coordKey k then JVal.obj [] else v) := by
        funext k v
        by_cases h1 : k = "page_coordinates"
        · simp [keyUpd, coordKey, h1]
        · by_cases h2 : k = "viewport_coordinates"
          · simp [keyUpd, coordKey, h1, h2]
          · by_cases h3 : k = "viewport_info"
            · simp [keyUpd, coordKey, h1, h2, h3]
            · simp [keyUpd, coordKey, h1, h2, h3]
      by_cases ht : (JVal.obj gs).truthy = true
      · simp only [specCleanElement, cleanElement, ht, if_pos]
        rw [updKey, updKey, updKey, mapVal_comp, mapVal_comp]
        exact congrArg JVal.obj (congrArg (fun g => mapVal g gs) hfun)
      · have hgs : gs = [] := by
          simp [JVal.truthy, List.isEmpty_iff] at ht
          exact ht
        subst hgs
        rfl

theorem specCleanState_eq (st : JVal) (h : validState st = true) :
    specCleanState st = cleanState st := by
  cases st with
  | null => simp [validState] at h
  | bool b => simp [validState] at h
  | num n => simp [validState] at h
  | str s => simp [validState] at h
  | arr xs => simp [validState] at h
  | obj fs =>
      obtain ⟨hnd, hss, hie⟩ := validState_parts fs h
      have hdecomp : mapVal cleanStateVal fs
          = mapVal (keyUpd "interacted_element" cleanInteractedVal)
              (mapVal (keyUpd "screenshot" cleanScreenshotVal) fs) := by
        rw [mapVal_comp]
        refine congrArg (fun g => mapVal g fs) ?_
        funext k v
        by_cases h1 : k = "screenshot"
        · simp [cleanStateVal, keyUpd, h1]
        · by_cases h2 : k = "interacted_element"
          · simp [cleanStateVal, keyUpd, h1, h2]
          · simp [cleanStateVal, keyUpd, h1, h2]
      have hfs1 : specScreenshotPass fs
          = mapVal (keyUpd "screenshot" cleanScreenshotVal) fs := by
        rcases hss with hgv | hgv | ⟨s, hgv⟩
        · rw [mapVal_keyUpd_of_none _ _ _ hgv]
          simp only [specScreenshotPass, hgv]
        · rw [mapVal_keyUpd_of_some _ _ _ _ hnd hgv]
          simp only [specScreenshotPass, hgv]
          exact (updKey_eq_self fs _ _ hnd hgv).symm
        · rw [mapVal_keyUpd_of_some _ _ _ _ hnd hgv]
          simp only [specScreenshotPass, hgv]
          by_cases hs : s = ""
          · subst hs
            rw [if_pos rfl]
            exact (updKey_eq_self fs _ _ hnd hgv).symm
          · rw [if_neg hs]
            have hclean : cleanScreenshotVal (JVal.str s) = JVal.str "" := by
              simp [cleanScreenshotVal, JVal.truthy, bne, hs]
            rw [hclean]
      have hkeys1 : keysOf (mapVal (keyUpd "screenshot" cleanScreenshotVal) fs)
          = keysOf fs := keysOf_mapVal _ _
      have hnd1 : (keysOf (mapVal (keyUpd "screenshot" cleanScreenshotVal) fs)).Nodup := by
        rw [hkeys1]; exact hnd
      have hgie1 : getVal (mapVal (keyUpd "screenshot" cleanScreenshotVal) fs)
            "interacted_element" = getVal fs "interacted_element" := by
        rw [getVal_mapVal]
        cases getVal fs "interacted_element" with
        | none => rfl
        | some v => simp [keyUpd]
      have hmapels : ∀ es : List JVal,
          es.map specCleanElement = es.map cleanElement := by
        intro es
        rw [funext specCleanElement_eq]
      have hfs2 : specInteractedPass (mapVal (keyUpd "screenshot" cleanScreenshotVal) fs)
          = mapVal (keyUpd "interacted_element" cleanInteractedVal)
              (mapVal (keyUpd "screenshot" cleanScreenshotVal) fs) := by
        rcases hie with hgv | ⟨es, hgv⟩
        · have hgv1 : getVal (mapVal (keyUpd "screenshot" cleanScreenshotVal) fs)
              "interacted_element" = none := by rw [hgie1]; exact hgv
          rw [mapVal_keyUpd_of_none _ _ _ hgv1]
          simp only [specInteractedPass, hgv1]
        · have hgv1 : getVal (mapVal (keyUpd "screenshot" cleanScreenshotVal) fs)
              "interacted_element" = some (JVal.arr es) := by rw [hgie1]; exact hgv
          rw [mapVal_keyUpd_of_some _ _ _ _ hnd1 hgv1]
          simp only [specInteractedPass, hgv1]
          rw [hmapels es]
          rfl
      show JVal.obj (specInteractedPass (specScreenshotPass fs))
      = JVal.obj (mapVal cleanStateVal fs)
      rw [hfs1, hfs2, hdecomp]

theorem specCleanEntry_eq (e : JVal) (h : validEntry e = true) :
    specCleanEntry e = cleanEntry e := by
  cases e with
  | null => simp [validEntry] at h
  | bool b => simp [validEntry] at h
  | num n => simp [validEntry] at h
  | str s => simp [validEntry] at h
  | arr xs => simp [validEntry] at h
  | obj fs =>
      obtain ⟨hnd, hst⟩ := validEntry_parts fs h
      rcases hst with hgv | ⟨st, hgv, hstv⟩
      · simp only [specCleanEntry, cleanEntry, hgv]
        rw [mapVal_keyUpd_of_none _ _ _ hgv]
      · simp only [specCleanEntry, cleanEntry, hgv]
        rw [mapVal_keyUpd_of_some _ _ _ _ hnd hgv,
          specCleanState_eq st hstv]

theorem map_congr_mem {α β : Type} (f g : α → β) (l : List α)
    (h : ∀ a ∈ l, f a = g a) : l.map f = l.map g := by
  induction l with
  | nil => rfl
  | cons a rest ih =>
      simp only [List.map_cons]
      rw [h a (List.mem_cons_self a rest), ih (fun b hb => h b (List.mem_cons_of_mem a hb))]

/-- Claim C1: for every valid trace document, clean_history succeeds and
produces exactly the document the spec describes: every step's present
non-empty screenshot string is replaced by the empty string with the key
kept, each of the three geometry fields present on a structured
interacted-element record is replaced by an empty mapping, and step
count, step order and every other field are unchanged (specCleanTrace
rewrites nothing else by construction). -/
theorem clean_history_spec_on_valid (doc : JVal) (h : validTrace doc = true) :
    clean_history doc = some (specCleanTrace doc) := by
  cases doc with
  | null => simp [validTrace] at h
  | bool b => simp [validTrace] at h
  | num n => simp [validTrace] at h
  | str s => simp [validTrace] at h
  | arr xs => simp [validTrace] at h
  | obj fs =>
      obtain ⟨hnd, es, hgv, hall⟩ := validTrace_parts fs h
      simp only [clean_history, specCleanTrace, hgv]
      rw [mapVal_keyUpd_of_some _ _ _ _ hnd hgv]
      rw [map_congr_mem specCleanEntry cleanEntry es
        (fun e he => specCleanEntry_eq e (hall e he))]
      rfl

/-- Witness for C1 at a concrete two-step trace with a screenshot, a
structured element carrying geometry fields, a null element, and extra
fields at every level. -/
theorem clean_history_spec_on_valid_witness :
    validTrace c1doc = true
    ∧ clean_history c1doc = some (specCleanTrace c1doc) :=
  ⟨by decide, clean_history_spec_on_valid c1doc (by decide)⟩

/-! ### Idempotence of the cleaner (claim C2) -/

theorem mapVal_idem (g : String → JVal → JVal)
    (hg : ∀ k v, g k (g k v) = g k v) (fs : List (String × JVal)) :
    mapVal g (mapVal g fs) = mapVal g fs := by
  rw [mapVal_comp]
  refine congrArg (fun g' => mapVal g' fs) ?_
  funext k v
  exact hg k v

theorem cleanElement_idem (el : JVal) :
    cleanElement (cleanElement el) = cleanElement el := by
  cases el with
  | null => rfl
  | bool b => rfl
  | num n => rfl
  | str s => rfl
  | arr xs => rfl
  | obj gs =>
      by_cases ht : (JVal.obj gs).truthy = true
      · have hlen : (mapVal (fun k v => if coordKey k then JVal.obj [] else v) gs).isEmpty
            = gs.isEmpty := by
          cases gs <;> rfl
        simp only [cleanElement]
        rw [if_pos ht]
        have ht2 : (JVal.obj (mapVal (fun k v => if coordKey k then JVal.obj [] else v) gs)).truthy = true := by
          simpa [JVal.truthy, hlen] using ht
        simp only [cleanElement]
        rw [if_pos ht2]
        rw [mapVal_idem]
        intro k v
        by_cases hc : coordKey k = true
        · simp [hc]
        · simp [hc]
      · have h1 : cleanElement (JVal.obj gs) = JVal.obj gs := by
          simp only [cleanElement]
          rw [if_neg ht]
        rw [h1, h1]

theorem cleanScreenshotVal_idem (v : JVal) :
    cleanScreenshotVal (cleanScreenshotVal v) = cleanScreenshotVal v := by
  by_cases ht : v.truthy = true
  · have h1 : cleanScreenshotVal v = JVal.str "" := by
      rw [cleanScreenshotVal, if_pos ht]
    rw [h1]
    rfl
  · have h1 : cleanScreenshotVal v = v := by
      rw [cleanScreenshotVal, if_neg ht]
    rw [h1, h1]

theorem cleanInteractedVal_idem (v : JVal) :
    cleanInteractedVal (cleanInteractedVal v) = cleanInteractedVal v := by
  cases v with
  | arr es =>
      simp only [cleanInteractedVal, List.map_map]
      rw [show cleanElement ∘ cleanElement = cleanElement from funext cleanElement_idem]
  | null => rfl
  | bool b => rfl
  | num n => rfl
  | str s => rfl
  | obj fs => rfl

theorem cleanStateVal_idem (k : String) (v : JVal) :
    cleanStateVal k (cleanStateVal k v) = cleanStateVal k v := by
  by_cases h1 : k = "screenshot"
  · simp [cleanStateVal, h1, cleanScreenshotVal_idem]
  · by_cases h2 : k = "interacted_element"
    · simp [cleanStateVal, h1, h2, cleanInteractedVal_idem]
    · simp [cleanStateVal, h1, h2]

theorem cleanState_idem (st : JVal) : cleanState (cleanState st) = cleanState st := by
  cases st with
  | obj fs => simp only [cleanState]; rw [mapVal_idem cleanStateVal cleanStateVal_idem]
  | null => rfl
  | bool b => rfl
  | num n => rfl
  | str s => rfl
  | arr xs => rfl

theorem cleanEntry_idem (e : JVal) : cleanEntry (cleanEntry e) = cleanEntry e := by
  cases e with
  | obj fs =>
      simp only [cleanEntry]
      rw [mapVal_idem]
      intro k v
      by_cases h1 : k = "state"
      · simp [keyUpd, h1, cleanState_idem]
      · simp [keyUpd, h1]
  | null => rfl
  | bool b => rfl
  | num n => rfl
  | str s => rfl
  | arr xs => rfl

theorem cleanHistoryVal_idem (v : JVal) :
    cleanHistoryVal (cleanHistoryVal v) = cleanHistoryVal v := by
  cases v with
  | arr es =>
      simp only [cleanHistoryVal, List.map_map]
      rw [show cleanEntry ∘ cleanEntry = cleanEntry from funext cleanEntry_idem]
  | null => rfl
  | bool b => rfl
  | num n => rfl
  | str s => rfl
  | obj fs => rfl

/-- Claim C2: sanitization is idempotent.  Whenever clean_history
succeeds, feeding its output back in succeeds and returns the output
unchanged, so clean (clean T) = clean T. -/
theorem clean_history_idempotent (doc out : JVal)
    (h : clean_history doc = some out) : clean_history out = some out := by
  cases doc with
  | null => simp [clean_history] at h
  | bool b => simp [clean_history] at h
  | num n => simp [clean_history] at h
  | str s => simp [clean_history] at h
  | arr xs => simp [clean_history] at h
  | obj fs =>
      cases hgv : getVal fs "history" with
      | none => simp [clean_history, hgv] at h
      | some v =>
          cases v with
          | arr es =>
              simp only [clean_history, hgv, Option.some.injEq] at h
              subst h
              have hgv2 : getVal (mapVal (keyUpd "history" cleanHistoryVal) fs) "history"
                  = some (JVal.arr (es.map cleanEntry)) := by
                rw [getVal_mapVal, hgv]
                simp [keyUpd, cleanHistoryVal]
              simp only [clean_history, hgv2, Option.some.injEq]
              rw [mapVal_idem]
              intro k v
              by_cases h1 : k = "history"
              · simp [keyUpd, h1, cleanHistoryVal_idem]
              · simp [keyUpd, h1]
          | null => simp [clean_history, hgv] at h
          | bool b => simp [clean_history, hgv] at h
          | num n => simp [clean_history, hgv] at h
          | str s => simp [clean_history, hgv] at h
          | obj o => simp [clean_history, hgv] at h

/-- Witness for C2 at a concrete one-step trace. -/
theorem clean_history_idempotent_witness :
    clean_history c2out = some c2out :=
  clean_history_idempotent c2doc c2out (by rfl)

/-! ### Element extraction (claims C3, C4, C10) -/

theorem filterMap_eq_map_filter {α β : Type} (f : α → Option β) (p : α → Bool)
    (g : α → β) (hf : ∀ a, f a = if p a then some (g a) else none)
    (l : List α) : l.filterMap f = (l.filter p).map g := by
  induction l with
  | nil => rfl
  | cons a rest ih =>
      rw [List.filterMap_cons, hf a, List.filter_cons]
      by_cases hp : p a = true
      · rw [if_pos hp, if_pos hp, List.map_cons, ih]
      · rw [if_neg hp, if_neg hp, ih]

theorem projF_spec (el : JVal) :
    (match el with
      | .obj gs =>
          if (JVal.obj gs).truthy then some (JVal.obj (projectElement gs))
          else none
      | _ => none)
    = if isNonEmptyRecord el then some (specProjectRecord el) else none := by
  cases el with
  | obj gs =>
      by_cases ht : (JVal.obj gs).truthy = true
      · have hrec : isNonEmptyRecord (JVal.obj gs) = true := ht
        simp only [ht, if_pos, hrec, specProjectRecord]
      · have hrec : isNonEmptyRecord (JVal.obj gs) = false := by
          simpa [isNonEmptyRecord, JVal.truthy] using ht
        simp only [ht, hrec]
        simp
  | null => rfl
  | bool b => rfl
  | num n => rfl
  | str s => rfl
  | arr xs => rfl

theorem extractEntryElems_eq (e : JVal) (h : validExtractEntry e = true) :
    extractEntryElems e
      = some (((elemsOfStep e).filter isNonEmptyRecord).map specProjectRecord) := by
  cases e with
  | obj fs =>
      simp only [validExtractEntry] at h
      simp only [extractEntryElems, elemsOfStep]
      cases hst : (getVal fs "state").getD (JVal.obj []) with
      | obj sfs =>
          rw [hst] at h
          simp only [validExtractState] at h
          cases hie : getVal sfs "interacted_element" with
          | none => simp only [extractStateElems, hie]; rfl
          | some v =>
              rw [hie] at h
              cases v with
              | arr es =>
                  simp only [extractStateElems, hie]
                  rw [filterMap_eq_map_filter _ isNonEmptyRecord specProjectRecord
                    projF_spec es]
              | obj o => simp at h
              | str s => simp at h
              | null => simp at h
              | bool b => simp at h
              | num n => simp at h
      | null => rw [hst] at h; simp [validExtractState] at h
      | bool b => rw [hst] at h; simp [validExtractState] at h
      | num n => rw [hst] at h; simp [validExtractState] at h
      | str s => rw [hst] at h; simp [validExtractState] at h
      | arr xs => rw [hst] at h; simp [validExtractState] at h
  | null => simp [validExtractEntry] at h
  | bool b => simp [validExtractEntry] at h
  | num n => simp [validExtractEntry] at h
  | str s => simp [validExtractEntry] at h
  | arr xs => simp [validExtractEntry] at h

theorem mapOpt_extract (es : List JVal) (h : es.all validExtractEntry = true) :
    mapOpt extractEntryElems es
      = some (es.map
          (fun e => ((elemsOfStep e).filter isNonEmptyRecord).map specProjectRecord)) := by
  induction es with
  | nil => rfl
  | cons e rest ih =>
      simp only [List.all_cons, Bool.and_eq_true] at h
      simp only [mapOpt, extractEntryElems_eq e h.1, ih h.2, List.map_cons]

theorem extract_eq_spec (doc : JVal) (h : validForExtract doc = true) :
    extract_interacted_elements doc
      = some (JVal.obj [("interacted_elements", JVal.arr (specExtractList doc))]) := by
  cases doc with
  | obj fs =>
      cases hd : (getVal fs "history").getD (JVal.arr []) with
      | arr es =>
          have h' : es.all validExtractEntry = true := by
            simpa [validForExtract, hd] using h
          simp only [extract_interacted_elements, hd, mapOpt_extract es h',
            specExtractList, stepsOf]
          rfl
      | null => simp [validForExtract, hd] at h
      | bool b => simp [validForExtract, hd] at h
      | num n => simp [validForExtract, hd] at h
      | str s => simp [validForExtract, hd] at h
      | obj o => simp [validForExtract, hd] at h
  | null => simp [validForExtract] at h
  | bool b => simp [validForExtract] at h
  | num n => simp [validForExtract] at h
  | str s => simp [validForExtract] at h
  | arr xs => simp [validForExtract] at h

/-- Claim C3 fails as stated: on a step whose interacted_element list
holds a single empty record, the code emits an empty list, while the
claim-worded prediction (keep every non-null structured record) emits
one all-null projection; the code additionally requires the record to be
non-empty (Python truthiness). -/
theorem extract_claim_cex :
    validForExtract c3cex = true
    ∧ extract_interacted_elements c3cex
        = some (JVal.obj [("interacted_elements", JVal.arr [])])
    ∧ (claimExtractList c3cex).length = 1
    ∧ ¬ ([] : List JVal) = claimExtractList c3cex := by
  refine ⟨by decide, by rfl, by rfl, ?_⟩
  intro h
  exact absurd (congrArg List.length h) (by decide)

/-- Claim C3, amended: for every exception-free trace, extract produces
the interacted_elements wrapper holding exactly the concatenation, in
step order and within-step order, of the five-field projection of every
non-null, non-empty structured record; a trace with zero interacted
elements yields the empty list. -/
theorem extract_matches_spec_on_valid (doc : JVal)
    (h : validForExtract doc = true) :
    extract_interacted_elements doc
      = some (JVal.obj [("interacted_elements", JVal.arr (specExtractList doc))]) :=
  extract_eq_spec doc h

/-- Witness for C3 at a trace with elements a, b, c across two steps,
interleaved with null entries: the output keeps all three in order. -/
theorem extract_matches_spec_witness :
    validForExtract c3doc = true
    ∧ extract_interacted_elements c3doc
        = some (JVal.obj [("interacted_elements", JVal.arr (specExtractList c3doc))])
    ∧ (specExtractList c3doc).length = 3 :=
  ⟨by decide, extract_matches_spec_on_valid c3doc (by decide), by rfl⟩

/-- Claim C4 fails as stated: the source has no NamingConventionError
(the name appears nowhere in the repository); the timestamp split of
line 54 is total, and a filename violating the convention still
produces the elements output, here with the whole filename standing in
as the timestamp. -/
theorem naming_error_cex :
    matchesNamingConvention "random.txt" = false
    ∧ extract_with_timestamp "random.txt" (JVal.obj [("history", JVal.arr [])])
        = some ("random.txt", JVal.obj [("interacted_elements", JVal.arr [])]) := by
  exact ⟨by decide, by rfl⟩

/-- Claim C4, amended: the extractor never fails on account of the
filename.  For every filename it derives a timestamp (the text after
the last 'cleaned_history_' marker and before the next '.json', the
whole remainder when either is absent) and succeeds whenever the trace
itself extracts. -/
theorem extract_total_any_filename (path : String) (doc out : JVal)
    (h : extract_interacted_elements doc = some out) :
    extract_with_timestamp path doc = some (extractTimestamp path, out) := by
  rw [extract_with_timestamp, h]
  rfl

/-- Witness for the amended C4: a conforming filename recovers its
timestamp. -/
theorem extract_total_any_filename_witness :
    extract_with_timestamp "logs/cleaned_history_20240101-120000.json"
        (JVal.obj [("history", JVal.arr [JVal.obj []])])
      = some ("20240101-120000",
          JVal.obj [("interacted_elements", JVal.arr [])]) :=
  extract_total_any_filename "logs/cleaned_history_20240101-120000.json"
    (JVal.obj [("history", JVal.arr [JVal.obj []])])
    (JVal.obj [("interacted_elements", JVal.arr [])]) (by rfl)

/-- Claim C10: every record the extractor emits carries exactly the five
keys tag_name, xpath, attributes, css_selector,
entire_parent_branch_path, in that order; it is the projection of a
source record of the trace, and a field the source record lacks is still
present, bound to null. -/
theorem emitted_record_shape (doc : JVal) (L : List JVal)
    (hv : validForExtract doc = true)
    (hout : extract_interacted_elements doc
        = some (JVal.obj [("interacted_elements", JVal.arr L)]))
    (r : JVal) (hr : r ∈ L) :
    ∃ gs : List (String × JVal),
      JVal.obj gs ∈ allInteractedElems doc
      ∧ r = JVal.obj (projectElement gs)
      ∧ keysOf (projectElement gs) = fiveKeys
      ∧ (∀ k ∈ fiveKeys, getVal (projectElement gs) k
          = some ((getVal gs k).getD JVal.null)) := by
  have hL : L = specExtractList doc := by
    have h2 := extract_eq_spec doc hv
    rw [hout] at h2
    simpa [Option.some.injEq, JVal.obj.injEq, List.cons.injEq, Prod.mk.injEq,
      JVal.arr.injEq] using h2
  subst hL
  have hr' : r ∈ ((stepsOf doc).map
      (fun e => ((elemsOfStep e).filter isNonEmptyRecord).map specProjectRecord)).flatten := hr
  rcases List.mem_flatten.mp hr' with ⟨l, hl, hrl⟩
  rcases List.mem_map.mp hl with ⟨e, he, rfl⟩
  rcases List.mem_map.mp hrl with ⟨el, hel, hrel⟩
  have hfil := List.mem_filter.mp hel
  cases el with
  | obj gs =>
      refine ⟨gs, ?_, ?_, rfl, ?_⟩
      · exact List.mem_flatten.mpr
          ⟨elemsOfStep e, List.mem_map.mpr ⟨e, he, rfl⟩, hfil.1⟩
      · rw [← hrel]; rfl
      · intro k hk
        simp only [fiveKeys, List.mem_cons, List.not_mem_nil, or_false] at hk
        rcases hk with rfl | rfl | rfl | rfl | rfl <;> rfl
  | null => simp [isNonEmptyRecord] at hfil
  | bool b => simp [isNonEmptyRecord] at hfil
  | num n => simp [isNonEmptyRecord] at hfil
  | str s => simp [isNonEmptyRecord] at hfil
  | arr xs => simp [isNonEmptyRecord] at hfil

/-- Witness for C10 at a record carrying only tag_name: the emitted
record still has all five keys, the other four bound to null. -/
theorem emitted_record_shape_witness :
    ∃ gs : List (String × JVal),
      JVal.obj gs ∈ allInteractedElems c10doc
      ∧ JVal.obj (projectElement [("tag_name", JVal.str "div")])
          = JVal.obj (projectElement gs)
      ∧ keysOf (projectElement gs) = fiveKeys
      ∧ (∀ k ∈ fiveKeys, getVal (projectElement gs) k
          = some ((getVal gs k).getD JVal.null)) :=
  emitted_record_shape c10doc
    [JVal.obj (projectElement [("tag_name", JVal.str "div")])]
    (by decide) (by rfl)
    (JVal.obj (projectElement [("tag_name", JVal.str "div")]))
    (List.mem_cons_self _ _)

/-! ### ConfigManager theorems (claims C5, C6, C7) -/

theorem get_config_generic (st : ConfigState) (key : String)
    (default : Option String)
    (h1 : key ≠ "CODE_GENERATION_PERSONA")
    (h2 : key ≠ "AZURE_OPENAI_ENDPOINT")
    (h3 : key ≠ "AZURE_DEPLOYMENT_NAME") :
    get_config st key default = resolve st key default := by
  simp only [get_config]
  rw [if_neg h3, if_neg h2, if_neg (fun hc => h1 hc.1)]

/-- Claim C6 fails as stated (for every key): after setting the
endpoint key to a URL with a path, get returns the canonicalized base
URL, not the value that was set. -/
theorem config_precedence_cex :
    get_config (set_config ⟨[], []⟩ "AZURE_OPENAI_ENDPOINT"
        "https://foo.example.com/v1") "AZURE_OPENAI_ENDPOINT" none
      = some "https://foo.example.com"
    ∧ ¬ get_config (set_config ⟨[], []⟩ "AZURE_OPENAI_ENDPOINT"
        "https://foo.example.com/v1") "AZURE_OPENAI_ENDPOINT" none
      = some "https://foo.example.com/v1" := by
  exact ⟨by decide, by decide⟩

/-- Claim C6, amended: for every key outside the three special-cased
ones (CODE_GENERATION_PERSONA, AZURE_OPENAI_ENDPOINT,
AZURE_DEPLOYMENT_NAME), get returns the runtime value if set, else the
environment value, else the default; after set the runtime value wins
regardless of the environment; and updateMany skips null entries. -/
theorem config_precedence_generic (st : ConfigState) (key : String)
    (default : Option String)
    (h1 : key ≠ "CODE_GENERATION_PERSONA")
    (h2 : key ≠ "AZURE_OPENAI_ENDPOINT")
    (h3 : key ≠ "AZURE_DEPLOYMENT_NAME") :
    (∀ v, lookupKey st.runtime key = some v →
        get_config st key default = some v)
    ∧ (lookupKey st.runtime key = none →
        ∀ w, lookupKey st.env key = some w →
          get_config st key default = some w)
    ∧ (lookupKey st.runtime key = none → lookupKey st.env key = none →
        get_config st key default = default)
    ∧ (∀ v, get_config (set_config st key v) key default = some v)
    ∧ (∀ k0 rest, update_from_ui st ((k0, (none : Option String)) :: rest)
        = update_from_ui st rest) := by
  refine ⟨?_, ?_, ?_, ?_, ?_⟩
  · intro v hv
    rw [get_config_generic st key default h1 h2 h3]
    simp [resolve, hv]
  · intro hr w hw
    rw [get_config_generic st key default h1 h2 h3]
    simp [resolve, hr, hw]
  · intro hr he
    rw [get_config_generic st key default h1 h2 h3]
    simp [resolve, hr, he]
  · intro v
    rw [get_config_generic _ key default h1 h2 h3]
    simp [resolve, set_config, lookupKey]
  · intro k0 rest
    rfl

/-- Witness for the amended C6 at a generic key: environment wins when
no runtime value is set, a set value shadows the environment, and a
null update entry is a no-op. -/
theorem config_precedence_generic_witness :
    get_config ⟨[], [("MODEL_PROVIDER", "openai")]⟩ "MODEL_PROVIDER" none
      = some "openai"
    ∧ get_config (set_config ⟨[], [("MODEL_PROVIDER", "openai")]⟩
        "MODEL_PROVIDER" "groq") "MODEL_PROVIDER" none = some "groq"
    ∧ update_from_ui ⟨[], [("MODEL_PROVIDER", "openai")]⟩
        [("MODEL_PROVIDER", (none : Option String))]
      = ⟨[], [("MODEL_PROVIDER", "openai")]⟩ :=
  ⟨(config_precedence_generic ⟨[], [("MODEL_PROVIDER", "openai")]⟩
      "MODEL_PROVIDER" none (by decide) (by decide) (by decide)).2.1
      (by rfl) "openai" (by rfl),
   (config_precedence_generic ⟨[], [("MODEL_PROVIDER", "openai")]⟩
      "MODEL_PROVIDER" none (by decide) (by decide) (by decide)).2.2.2.1 "groq",
   ((config_precedence_generic ⟨[], [("MODEL_PROVIDER", "openai")]⟩
      "MODEL_PROVIDER" none (by decide) (by decide) (by decide)).2.2.2.2
      "MODEL_PROVIDER" []).trans (by rfl)⟩

theorem get_config_adn (st : ConfigState) (default : Option String) :
    get_config st "AZURE_DEPLOYMENT_NAME" default
      = (match adnLookup st with
         | some dn => if dn = "" then resolve st "MODEL_NAME" default
                      else some dn
         | none => resolve st "MODEL_NAME" default) := by
  simp only [get_config]
  rw [if_pos trivial]

/-- Claim C7: for the deployment-name key, an explicitly set (or
environment) non-empty deployment name wins; with none present, the
model name resolved under the same precedence (with the caller's
default) is returned; in particular MODEL_NAME=gpt-4 in the environment
yields gpt-4. -/
theorem deployment_fallback (st : ConfigState) (default : Option String) :
    (∀ dn, adnLookup st = some dn → dn ≠ "" →
        get_config st "AZURE_DEPLOYMENT_NAME" default = some dn)
    ∧ (adnLookup st = none →
        get_config st "AZURE_DEPLOYMENT_NAME" default
          = resolve st "MODEL_NAME" default)
    ∧ get_config ⟨[], [("MODEL_NAME", "gpt-4")]⟩ "AZURE_DEPLOYMENT_NAME" none
        = some "gpt-4" := by
  refine ⟨?_, ?_, by decide⟩
  · intro dn h hne
    rw [get_config_adn st default, h]
    simp [hne]
  · intro h
    rw [get_config_adn st default, h]

/-- Witness for C7: an explicitly set deployment name is preferred over
an environment model name. -/
theorem deployment_fallback_witness :
    get_config ⟨[("AZURE_DEPLOYMENT_NAME", "prod-gpt4")],
        [("MODEL_NAME", "gpt-4")]⟩ "AZURE_DEPLOYMENT_NAME" none
      = some "prod-gpt4" :=
  (deployment_fallback ⟨[("AZURE_DEPLOYMENT_NAME", "prod-gpt4")],
      [("MODEL_NAME", "gpt-4")]⟩ none).1 "prod-gpt4" (by rfl) (by decide)

theorem all_takeWhile {α : Type} (p : α → Bool) (l : List α) :
    ((l.takeWhile p).all p) = true := by
  induction l with
  | nil => rfl
  | cons a rest ih =>
      by_cases h : p a = true
      · simp [List.takeWhile_cons, h, ih]
      · simp [List.takeWhile_cons, h]

theorem netloc_no_sep (s : String) (sc nl : String)
    (hp : urlparseSchemeNetloc s = some (sc, nl)) :
    nl.data.all (fun c => !netlocEnd c) = true := by
  simp only [urlparseSchemeNetloc] at hp
  split at hp
  · split at hp
    · exact Option.noConfusion hp
    · simp only [Option.some.injEq, Prod.mk.injEq] at hp
      rw [← hp.2]
      exact all_takeWhile _ _
  · simp only [Option.some.injEq, Prod.mk.injEq] at hp
    rw [← hp.2]
    rfl

/-- Claim C5: get on the endpoint key routes the resolved value through
URL canonicalization; a parsed URL is re-emitted as scheme://netloc
where the netloc contains no path, query or fragment separator; on a
parse failure the raw value is returned unchanged (and the function is
total, so it never raises); the spec's worked example canonicalizes as
stated. -/
theorem endpoint_canonicalization (st : ConfigState)
    (default : Option String) (s : String) :
    get_config st "AZURE_OPENAI_ENDPOINT" default
      = clean_azure_endpoint (resolve st "AZURE_OPENAI_ENDPOINT" default)
    ∧ (s ≠ "" → urlparseSchemeNetloc s = none →
        clean_azure_endpoint (some s) = some s)
    ∧ (∀ sc nl, s ≠ "" → urlparseSchemeNetloc s = some (sc, nl) →
        clean_azure_endpoint (some s) = some (sc ++ "://" ++ nl)
        ∧ nl.data.all (fun c => !netlocEnd c) = true)
    ∧ clean_azure_endpoint
        (some "https://foo.openai.azure.com/v1/chat?api-version=2024")
      = some "https://foo.openai.azure.com" := by
  refine ⟨?_, ?_, ?_, by decide⟩
  · simp [get_config]
  · intro hne hp
    simp only [clean_azure_endpoint]
    rw [if_neg hne, hp]
  · intro sc nl hne hp
    constructor
    · simp only [clean_azure_endpoint]
      rw [if_neg hne, hp]
    · exact netloc_no_sep s sc nl hp

/-- Witness for C5: a URL with port, path and query keeps only
scheme://host:port, and a URL that fails to parse (unbalanced IPv6
bracket) passes through unchanged. -/
theorem endpoint_canonicalization_witness :
    clean_azure_endpoint (some "https://h.example.com:8443/p?q=1")
      = some "https://h.example.com:8443"
    ∧ clean_azure_endpoint (some "http://[::1/x") = some "http://[::1/x" :=
  ⟨((endpoint_canonicalization ⟨[], []⟩ none
      "https://h.example.com:8443/p?q=1").2.2.1 "https" "h.example.com:8443"
      (by decide) (by decide)).1,
   (endpoint_canonicalization ⟨[], []⟩ none "http://[::1/x").2.1
      (by decide) (by decide)⟩

/-! ### Fence stripping theorems (claim C8) -/

theorem filter_idem {α : Type} (p : α → Bool) (l : List α) :
    (l.filter p).filter p = l.filter p := by
  apply List.filter_eq_self.mpr
  intro a ha
  exact List.of_mem_filter ha

theorem contains_mono (m : String) (p : String → Bool) (lines : List String)
    (h : containsMarker m (lines.filter p) = true) :
    containsMarker m lines = true := by
  simp only [containsMarker, List.any_eq_true] at h ⊢
  obtain ⟨l, hl, hml⟩ := h
  exact ⟨l, List.mem_of_mem_filter hl, hml⟩

/-- Claim C8 fails as stated: on a text containing a python fence line
and a line mentioning the typescript marker, the first pass removes the
python fence, after which the second pass dispatches to the typescript
branch and removes a further line, so stripping an already-stripped text
changes it. -/
theorem fence_strip_idem_cex :
    ¬ stripFences (stripFences c8lines) = stripFences c8lines := by
  decide

/-- Claim C8, amended: fence stripping is idempotent on every text in
which at most one of the three language markers occurs; the branch
dispatch on the first marker found makes it non-idempotent on texts
mixing two markers. -/
theorem fence_strip_idem_single_marker (lines : List String)
    (h1 : ¬(containsMarker "```python" lines = true
        ∧ containsMarker "```typescript" lines = true))
    (h2 : ¬(containsMarker "```python" lines = true
        ∧ containsMarker "```java" lines = true))
    (h3 : ¬(containsMarker "```typescript" lines = true
        ∧ containsMarker "```java" lines = true)) :
    stripFences (stripFences lines) = stripFences lines := by
  by_cases hpy : containsMarker "```python" lines = true
  · have e1 : stripFences lines = stripFenceLines "```python" lines := by
      rw [stripFences, if_pos hpy]
    rw [e1]
    by_cases hpy2 : containsMarker "```python"
        (stripFenceLines "```python" lines) = true
    · rw [stripFences, if_pos hpy2]
      exact filter_idem _ _
    · have hts2 : ¬ containsMarker "```typescript"
          (stripFenceLines "```python" lines) = true :=
        fun hc => h1 ⟨hpy, contains_mono _ _ _ hc⟩
      have hja2 : ¬ containsMarker "```java"
          (stripFenceLines "```python" lines) = true :=
        fun hc => h2 ⟨hpy, contains_mono _ _ _ hc⟩
      rw [stripFences, if_neg hpy2, if_neg hts2, if_neg hja2]
  · by_cases hts : containsMarker "```typescript" lines = true
    · have e1 : stripFences lines = stripFenceLines "```typescript" lines := by
        rw [stripFences, if_neg hpy, if_pos hts]
      rw [e1]
      have hpy2 : ¬ containsMarker "```python"
          (stripFenceLines "```typescript" lines) = true :=
        fun hc => hpy (contains_mono _ _ _ hc)
      by_cases hts2 : containsMarker "```typescript"
          (stripFenceLines "```typescript" lines) = true
      · rw [stripFences, if_neg hpy2, if_pos hts2]
        exact filter_idem _ _
      · have hja2 : ¬ containsMarker "```java"
            (stripFenceLines "```typescript" lines) = true :=
          fun hc => h3 ⟨hts, contains_mono _ _ _ hc⟩
        rw [stripFences, if_neg hpy2, if_neg hts2, if_neg hja2]
    · by_cases hja : containsMarker "```java" lines = true
      · have e1 : stripFences lines = stripFenceLines "```java" lines := by
          rw [stripFences, if_neg hpy, if_neg hts, if_pos hja]
        rw [e1]
        have hpy2 : ¬ containsMarker "```python"
            (stripFenceLines "```java" lines) = true :=
          fun hc => hpy (contains_mono _ _ _ hc)
        have hts2 : ¬ containsMarker "```typescript"
            (stripFenceLines "```java" lines) = true :=
          fun hc => hts (contains_mono _ _ _ hc)
        by_cases hja2 : containsMarker "```java"
            (stripFenceLines "```java" lines) = true
        · rw [stripFences, if_neg hpy2, if_neg hts2, if_pos hja2]
          exact filter_idem _ _
        · rw [stripFences, if_neg hpy2, if_neg hts2, if_neg hja2]
      · have e1 : stripFences lines = lines := by
          rw [stripFences, if_neg hpy, if_neg hts, if_neg hja]
        rw [e1, e1]

/-- Witness for the amended C8 at a single-marker python text. -/
theorem fence_strip_idem_witness :
    stripFences (stripFences ["```python", "x = 1", "```"])
      = stripFences ["```python", "x = 1", "```"] :=
  fence_strip_idem_single_marker ["```python", "x = 1", "```"]
    (by decide) (by decide) (by decide)

/-! ### Streaming refinement (claim C9) -/

/-- Claim C9: for every provider whose streamed fragments concatenate
to its non-streamed response, the streaming generation path yields
fragments concatenating to exactly the non-streaming path's result for
the same cleaned history and prompt template: both build the identical
two-message prompt and the stream is a pass-through. -/
theorem stream_refines_invoke (P : Provider)
    (hP : ∀ msgs, String.join (P.stream msgs) = P.invoke msgs)
    (historyContent promptTemplate : String) :
    String.join (generate_typescript_code_stream P historyContent promptTemplate)
      = generate_typescript_code P historyContent promptTemplate :=
  hP (buildMessages historyContent promptTemplate)

/-- Witness for C9 with a two-fragment mock provider. -/
theorem stream_refines_invoke_witness :
    String.join (generate_typescript_code_stream
        ⟨fun _ => "const x = 1;", fun _ => ["const ", "x = 1;"]⟩ "hist" "tmpl")
      = generate_typescript_code
        ⟨fun _ => "const x = 1;", fun _ => ["const ", "x = 1;"]⟩ "hist" "tmpl" :=
  stream_refines_invoke
    ⟨fun _ => "const x = 1;", fun _ => ["const ", "x = 1;"]⟩
    (fun _ => rfl) "hist" "tmpl"

end Spec2Proof
